import Mathlib

/-!
Verification of the viewports windowing subsystem: a shallow embedding of
the deferred-command viewport proxy (`src/old/windowing.rs`), the wgpu
presentation-surface lifecycle (`src/src/wgpu.rs`) and the focus-order
adapter (`src/src/platform/focus_order.rs`), together with theorems about
the claimed properties.

Modelling conventions:
- Rust `HashMap` becomes an association list with unique keys; `insert`,
  `remove` and `get_mut` become `upsert`, `eraseKey` and `modifyValue`.
- Panicking operations (`unwrap`, `expect`, panicking aborts) become
  `Option`, with `none` marking the abort.
- `f32` geometry values are modelled as exact integers (`Int`); the
  saturating `as u32` / `as i32` casts of integral values keep their
  saturation behaviour (`intToU32`, `intToI32`).
- winit windows are modelled by their observable state (`NativeState`);
  freshly spawned windows get a platform-chosen default geometry.
-/

namespace Viewports

abbrev Key := Nat
abbrev WindowId := Nat

/-- Lookup in an association list, mirroring `HashMap::get`. -/
def alookup {β : Type} (k : Nat) : List (Nat × β) → Option β
  | [] => none
  | (k', v) :: rest => if k = k' then some v else alookup k rest

/-- Insert-or-replace, mirroring `HashMap::insert`. -/
def upsert {β : Type} (k : Nat) (v : β) : List (Nat × β) → List (Nat × β)
  | [] => [(k, v)]
  | (k', v') :: rest => if k = k' then (k, v) :: rest else (k', v') :: upsert k v rest

/-- Remove a binding, mirroring `HashMap::remove`. -/
def eraseKey {β : Type} (k : Nat) : List (Nat × β) → List (Nat × β)
  | [] => []
  | (k', v') :: rest => if k = k' then rest else (k', v') :: eraseKey k rest

/-- In-place modification of the value bound to `k`, mirroring `HashMap::get_mut`.
No effect when `k` is absent. -/
def modifyValue {β : Type} (k : Nat) (f : β → β) : List (Nat × β) → List (Nat × β)
  | [] => []
  | (k', v') :: rest => if k = k' then (k', f v') :: rest else (k', v') :: modifyValue k f rest

/-- Source `Option`-valued map over a list, failing at the first failure; mirrors the
Rust loops that `unwrap` inside an iteration. -/
def omapM {α β : Type} (f : α → Option β) : List α → Option (List β)
  | [] => some []
  | a :: l =>
    match f a with
    | none => none
    | some b =>
      match omapM f l with
      | none => none
      | some bs => some (b :: bs)

/-- Source `ImVec2`: imgui's 2-component vector (`f32` fields modelled as exact integers). -/
structure ImVec2 where
  x : Int
  y : Int
deriving DecidableEq, Repr

/-- Rust `f32 as u32` saturating cast of an integral value. -/
def intToU32 (x : Int) : Nat := min x.toNat 4294967295

/-- Rust `f32 as i32` saturating cast of an integral value. -/
def intToI32 (x : Int) : Int := max (-2147483648) (min x 2147483647)

/-- Observable state of a winit `Window`: inner size, outer position, title,
visibility and the decoration flag it was built with. -/
structure NativeState where
  innerWidth : Nat
  innerHeight : Nat
  outerX : Int
  outerY : Int
  title : String
  visible : Bool
  decorated : Bool
deriving DecidableEq, Repr

/-- Source `Outlet` of `src/old/windowing.rs`: swap-chain descriptor dimensions plus
the optional swap chain (present = bound swap target). -/
structure Outlet where
  scWidth : Nat
  scHeight : Nat
  swapChain : Option (Nat × Nat)
deriving DecidableEq, Repr

/-- Source `Outlet::desc()`: descriptor starts with zero size and no swap chain. -/
def Outlet.desc : Outlet := { scWidth := 0, scHeight := 0, swapChain := none }

/-- Source `NativeWindow` of `src/old/windowing.rs`. -/
structure NativeWindow where
  native : NativeState
  outlet : Outlet
  focus : Bool
  minimized : Bool
deriving DecidableEq, Repr

/-- Source `NativeWindow::with_surface`: wraps a native window, focused and not
minimized, with a bare outlet. -/
def NativeWindow.with_surface (native : NativeState) : NativeWindow :=
  { native := native, outlet := Outlet.desc, focus := true, minimized := false }

/-- Source `NativeWindow::create_swap_chain`: size the descriptor to the window's
current inner size and build the swap chain. -/
def NativeWindow.create_swap_chain (w : NativeWindow) : NativeWindow :=
  { w with outlet := { scWidth := w.native.innerWidth, scHeight := w.native.innerHeight,
                       swapChain := some (w.native.innerWidth, w.native.innerHeight) } }

/-- The state of a window freshly built by `WindowBuilder::new().with_decorations(d)`:
visible, untitled, at a platform-chosen default geometry. -/
def freshNative (decorations : Bool) : NativeState :=
  { innerWidth := 800, innerHeight := 600, outerX := 0, outerY := 0,
    title := "", visible := true, decorated := decorations }

/-- Source `Manager` of `src/old/windowing.rs` (the wgpu `Instance` handle is not
modelled); `nextWid` models winit's supply of fresh window identifiers. -/
structure Manager where
  windows : List (WindowId × NativeWindow)
  nextWid : WindowId
deriving DecidableEq, Repr

/-- Source `ActiveManager::spawn_native_window`: build a fresh native window and
insert it under its (fresh) identifier. -/
def Manager.spawn_native_window (m : Manager) (decorations : Bool) : WindowId × Manager :=
  let wid := m.nextWid
  let w := NativeWindow.with_surface (freshNative decorations)
  (wid, { windows := upsert wid w m.windows, nextWid := m.nextWid + 1 })

/-- Source `CacheData` of the proxy: per-key snapshot of size, position, focus and
minimized flags. -/
structure CacheData where
  size : ImVec2
  pos : ImVec2
  focus : Bool
  minimized : Bool
deriving DecidableEq, Repr

/-- Source `Cache`: the native window id a key maps to, plus the optional snapshot. -/
structure Cache where
  wid : WindowId
  data : Option CacheData
deriving DecidableEq, Repr

/-- Source `Kind`: the deferred commands of the proxy. -/
inductive Kind where
  | CreateWindow (decorations : Bool)
  | DestroyWindow
  | ShowWindow
  | SetPos (v : ImVec2)
  | SetSize (v : ImVec2)
  | SetFocus
  | SetTitle (t : String)
deriving DecidableEq, Repr

/-- Source `Command`: a deferred command tagged with its target key. -/
structure Command where
  key : Key
  kind : Kind
deriving DecidableEq, Repr

/-- Source `Proxy` of `src/old/windowing.rs`. -/
structure Proxy where
  windows : List (Key × Cache)
  commands : List Command
  next_id : Key
deriving DecidableEq, Repr

/-- Source `Proxy::new`. -/
def Proxy.new : Proxy := { windows := [], commands := [], next_id := 1 }

/-- Source `Proxy::next_key`: return the current counter and bump it. -/
def Proxy.next_key (p : Proxy) : Key × Proxy :=
  (p.next_id, { p with next_id := p.next_id + 1 })

/-- Source `Proxy::use_window`: bind an existing native window to a freshly minted
key, with no cache data. -/
def Proxy.use_window (p : Proxy) (wid : WindowId) : Key × Proxy :=
  let (key, p) := p.next_key
  (key, { p with windows := upsert key { wid := wid, data := none } p.windows })

/-- Source `Proxy::create_window`: mint a key and enqueue `CreateWindow`. -/
def Proxy.create_window (p : Proxy) (decorations : Bool) : Key × Proxy :=
  let (key, p) := p.next_key
  (key, { p with commands := p.commands ++ [{ key := key, kind := .CreateWindow decorations }] })

/-- Source `Proxy::destroy_window`: enqueue `DestroyWindow`. -/
def Proxy.destroy_window (p : Proxy) (key : Key) : Proxy :=
  { p with commands := p.commands ++ [{ key := key, kind := .DestroyWindow }] }

/-- Source `Proxy::show_window`: enqueue `ShowWindow`. -/
def Proxy.show_window (p : Proxy) (key : Key) : Proxy :=
  { p with commands := p.commands ++ [{ key := key, kind := .ShowWindow }] }

/-- Source `Proxy::make_dirty`: drop the cached snapshot for `key`, when present. -/
def Proxy.make_dirty (p : Proxy) (key : Key) : Proxy :=
  { p with windows := modifyValue key (fun c => { c with data := none }) p.windows }

/-- Source `Proxy::set_position`: clear the cache entry and enqueue `SetPos`. -/
def Proxy.set_position (p : Proxy) (key : Key) (pos : ImVec2) : Proxy :=
  let p := p.make_dirty key
  { p with commands := p.commands ++ [{ key := key, kind := .SetPos pos }] }

/-- Source `Proxy::set_size`: clear the cache entry and enqueue `SetSize`. -/
def Proxy.set_size (p : Proxy) (key : Key) (size : ImVec2) : Proxy :=
  let p := p.make_dirty key
  { p with commands := p.commands ++ [{ key := key, kind := .SetSize size }] }

/-- Source `Proxy::set_focus`: clear the cache entry and enqueue `SetFocus`. -/
def Proxy.set_focus (p : Proxy) (key : Key) : Proxy :=
  let p := p.make_dirty key
  { p with commands := p.commands ++ [{ key := key, kind := .SetFocus }] }

/-- Source `Proxy::set_title`: enqueue `SetTitle` (cache untouched). -/
def Proxy.set_title (p : Proxy) (key : Key) (title : String) : Proxy :=
  { p with commands := p.commands ++ [{ key := key, kind := .SetTitle title }] }

/-- Source `Proxy::expect_data_from_key`: the cached snapshot for `key`; `none`
models the `unwrap` panic on an absent entry or absent data. -/
def Proxy.expect_data_from_key (p : Proxy) (key : Key) : Option CacheData :=
  (alookup key p.windows).bind (fun c => c.data)

/-- Source `Proxy::get_position`. -/
def Proxy.get_position (p : Proxy) (key : Key) : Option ImVec2 :=
  (p.expect_data_from_key key).map (fun d => d.pos)

/-- Source `Proxy::get_size`. -/
def Proxy.get_size (p : Proxy) (key : Key) : Option ImVec2 :=
  (p.expect_data_from_key key).map (fun d => d.size)

/-- Source `Proxy::get_focus`. -/
def Proxy.get_focus (p : Proxy) (key : Key) : Option Bool :=
  (p.expect_data_from_key key).map (fun d => d.focus)

/-- Source `Proxy::get_minimized`. -/
def Proxy.get_minimized (p : Proxy) (key : Key) : Option Bool :=
  (p.expect_data_from_key key).map (fun d => d.minimized)

/-- One step of the drain loop in `Proxy::update`: apply one drained command
to the proxy/manager pair; `none` models an `unwrap` panic. -/
def applyCommand (st : Proxy × Manager) (c : Command) : Option (Proxy × Manager) :=
  let (p, m) := st
  match c.kind with
  | .CreateWindow decorations =>
    let (wid, m) := m.spawn_native_window decorations
    some ({ p with windows := upsert c.key { wid := wid, data := none } p.windows }, m)
  | .DestroyWindow =>
    match alookup c.key p.windows with
    | none => none
    | some cache =>
      some ({ p with windows := eraseKey c.key p.windows },
            { m with windows := eraseKey cache.wid m.windows })
  | .ShowWindow =>
    match alookup c.key p.windows with
    | none => none
    | some cache =>
      match alookup cache.wid m.windows with
      | none => none
      | some _ =>
        let ws := modifyValue cache.wid (fun w =>
          { w with native := { w.native with visible := true } }) m.windows
        some (p, { m with windows := ws })
  | .SetPos pos =>
    match alookup c.key p.windows with
    | none => none
    | some cache =>
      match alookup cache.wid m.windows with
      | none => none
      | some _ =>
        let ws := modifyValue cache.wid (fun w =>
          { w with native := { w.native with outerX := intToI32 pos.x,
                                             outerY := intToI32 pos.y } }) m.windows
        some (p, { m with windows := ws })
  | .SetSize size =>
    match alookup c.key p.windows with
    | none => none
    | some cache =>
      match alookup cache.wid m.windows with
      | none => none
      | some _ =>
        let ws := modifyValue cache.wid (fun w =>
          { w with native := { w.native with innerWidth := intToU32 size.x,
                                             innerHeight := intToU32 size.y },
                   outlet := { w.outlet with swapChain := none } }) m.windows
        some (p, { m with windows := ws })
  | .SetFocus =>
    match alookup c.key p.windows with
    | none => none
    | some cache =>
      match alookup cache.wid m.windows with
      | none => none
      | some _ => some (p, m)
  | .SetTitle title =>
    match alookup c.key p.windows with
    | none => none
    | some cache =>
      match alookup cache.wid m.windows with
      | none => none
      | some _ =>
        let ws := modifyValue cache.wid (fun w =>
          { w with native := { w.native with title := title } }) m.windows
        some (p, { m with windows := ws })

/-- The drain loop of `Proxy::update`, in FIFO order; `none` models a panic
while applying a command. -/
def runCommands : Proxy × Manager → List Command → Option (Proxy × Manager)
  | st, [] => some st
  | st, c :: rest =>
    match applyCommand st c with
    | none => none
    | some st' => runCommands st' rest

/-- The snapshot recomputed at the end of `Proxy::update` from a live native
window's current geometry, focus and minimized flags. -/
def mkCacheData (w : NativeWindow) : CacheData :=
  { size := { x := (w.native.innerWidth : Int), y := (w.native.innerHeight : Int) },
    pos := { x := w.native.outerX, y := w.native.outerY },
    focus := w.focus,
    minimized := w.minimized }

/-- One step of the recache loop of `Proxy::update`: look the entry's native
window up and repopulate the snapshot; `none` models the `unwrap` panic. -/
def recacheEntry (m : Manager) (e : Key × Cache) : Option (Key × Cache) :=
  match alookup e.2.wid m.windows with
  | none => none
  | some w => some (e.1, { wid := e.2.wid, data := some (mkCacheData w) })

/-- Source `Proxy::update`: drain all queued commands in FIFO order against the
manager, then recompute every live key's snapshot from the native windows. -/
def Proxy.update (p : Proxy) (m : Manager) : Option (Proxy × Manager) :=
  match runCommands ({ p with commands := [] }, m) p.commands with
  | none => none
  | some (p', m') =>
    match omapM (recacheEntry m') p'.windows with
    | none => none
    | some ws => some ({ p' with windows := ws }, m')

/-! GUI-layer call sequences (for the create/destroy drain property). -/

/-- A createWindow/destroyWindow call issued by the GUI layer before a drain. -/
inductive GuiOp where
  | create (decorations : Bool)
  | destroy (k : Key)
deriving DecidableEq, Repr

/-- Issue a sequence of create/destroy calls on the proxy (no drain between). -/
def issueAll (p : Proxy) : List GuiOp → Proxy
  | [] => p
  | .create d :: rest => issueAll (p.create_window d).2 rest
  | .destroy k :: rest => issueAll (p.destroy_window k) rest

/-- The command list such a sequence enqueues, with keys minted from `n`. -/
def encode (n : Key) : List GuiOp → List Command
  | [] => []
  | .create d :: rest => { key := n, kind := .CreateWindow d } :: encode (n + 1) rest
  | .destroy k :: rest => { key := k, kind := .DestroyWindow } :: encode n rest

/-- Specification-level effect of one call on the (live keys, next key) pair:
a create appends the minted key, a destroy removes a live key; destroying a
key that is not live is ill-formed. -/
def specStep : Option (List Key × Key) → GuiOp → Option (List Key × Key)
  | some (live, n), .create _ => some (live ++ [n], n + 1)
  | some (live, n), .destroy k => if k ∈ live then some (live.erase k, n) else none
  | none, _ => none

/-- Net effect of a call sequence on the live-key set (creates minus destroys,
respecting order). -/
def netEffect (live : List Key) (n : Key) (ops : List GuiOp) : Option (List Key × Key) :=
  ops.foldl specStep (some (live, n))

/-- Proxies reachable from `Proxy::new` through the public operations. -/
inductive Reached : Proxy → Prop where
  | new : Reached Proxy.new
  | use_window {p : Proxy} (wid : WindowId) : Reached p → Reached (p.use_window wid).2
  | create_window {p : Proxy} (d : Bool) : Reached p → Reached (p.create_window d).2
  | destroy_window {p : Proxy} (k : Key) : Reached p → Reached (p.destroy_window k)
  | show_window {p : Proxy} (k : Key) : Reached p → Reached (p.show_window k)
  | set_position {p : Proxy} (k : Key) (v : ImVec2) : Reached p → Reached (p.set_position k v)
  | set_size {p : Proxy} (k : Key) (v : ImVec2) : Reached p → Reached (p.set_size k v)
  | set_focus {p : Proxy} (k : Key) : Reached p → Reached (p.set_focus k)
  | set_title {p : Proxy} (k : Key) (t : String) : Reached p → Reached (p.set_title k t)
  | update {p p' : Proxy} {m m' : Manager} :
      Reached p → Proxy.update p m = some (p', m') → Reached p'

/-! The wgpu presentation-surface lifecycle (`src/src/wgpu.rs`). -/

/-- Source `Outlet` of `src/src/wgpu.rs`: bare surface, bound swap chain (recorded
with the dimensions it was built at), or the transient invalid marker. -/
inductive WgpuOutlet where
  | Surface (surface : Nat)
  | SwapChain (surface : Nat) (width height : Nat)
  | Invalid
deriving DecidableEq, Repr

/-- Source `WgpuViewport`: one native window, its outlet and the redraw-pending flag. -/
structure WgpuViewport where
  window : NativeState
  outlet : WgpuOutlet
  waits_redraw : Bool
deriving DecidableEq, Repr

/-- Source `WgpuViewport::with_surface`. -/
def WgpuViewport.with_surface (window : NativeState) (surface : Nat) : WgpuViewport :=
  { window := window, outlet := .Surface surface, waits_redraw := false }

/-- Outcome of `SwapChain::get_current_frame`, abstracted: the GPU either
yields a frame or a retryable acquisition error. -/
inductive AcqResult where
  | ok (frame : Nat)
  | err (e : Nat)
deriving DecidableEq, Repr

/-- Source `WgpuViewport::with_swap_chain` specialised to frame acquisition: swap the
outlet out for `Invalid`, build the swap chain from the surface at the
window's current inner size if needed, run the acquisition, and restore the
outlet as `SwapChain`. Acting on an `Invalid` outlet panics (`none`). -/
def WgpuViewport.with_swap_chain (vp : WgpuViewport)
    (acquire : Nat → Nat → Nat → AcqResult) : Option (AcqResult × WgpuViewport) :=
  match vp.outlet with
  | .Surface s =>
    let w := vp.window.innerWidth
    let h := vp.window.innerHeight
    some (acquire s w h, { vp with outlet := .SwapChain s w h })
  | .SwapChain s w h =>
    some (acquire s w h, { vp with outlet := .SwapChain s w h })
  | .Invalid => none

/-- Source `WgpuViewport::drop_swap_chain`: turn a bound swap chain back into its
bare surface; other states are kept. -/
def WgpuViewport.drop_swap_chain (vp : WgpuViewport) : WgpuViewport :=
  match vp.outlet with
  | .SwapChain s _ _ => { vp with outlet := .Surface s }
  | other => { vp with outlet := other }

/-- Source `Viewport::on_resize` for `WgpuViewport`. -/
def WgpuViewport.on_resize (vp : WgpuViewport) : WgpuViewport :=
  vp.drop_swap_chain

/-- Source `WgpuViewport::surface`: the bare surface, when the outlet holds one. -/
def WgpuViewport.surface (vp : WgpuViewport) : Option Nat :=
  match vp.outlet with
  | .Surface s => some s
  | _ => none

/-- Source `WgpuViewport::complete_redraw`: mark the viewport redraw-pending. -/
def WgpuViewport.complete_redraw (vp : WgpuViewport) : WgpuViewport :=
  { vp with waits_redraw := true }

/-- Source `Viewport::on_draw` for `WgpuViewport`: clear the redraw-pending flag,
acquire the current frame, and on failure drop the frame (no present); on
success record, submit and present. The returned `Bool` is whether a frame
was presented; `none` models a panic (acting on an `Invalid` outlet). The
render pass itself (clear plus optional draw data) has no effect on the
modelled state and is out of scope. -/
def WgpuViewport.on_draw (vp : WgpuViewport)
    (acquire : Nat → Nat → Nat → AcqResult) : Option (WgpuViewport × Bool) :=
  let vp := { vp with waits_redraw := false }
  match vp.with_swap_chain acquire with
  | none => none
  | some (.err _, vp') => some (vp', false)
  | some (.ok _, vp') => some (vp', true)

/-- Source `WgpuManager` (the wgpu `Instance` handle is not modelled). -/
structure WgpuManager where
  viewports : List (WindowId × WgpuViewport)
deriving DecidableEq, Repr

/-- Source `WgpuManager::viewports_to_redraw`: the viewports whose redraw-pending
flag is set. -/
def WgpuManager.viewports_to_redraw (m : WgpuManager) : List (WindowId × WgpuViewport) :=
  m.viewports.filter (fun e => e.2.waits_redraw)

/-! The focus-order adapter (`src/src/platform/focus_order.rs`). -/

/-- The fields of `ImGuiWindow` the adapter reads. -/
structure ImGuiWindow where
  Name : String
  ViewportOwned : Bool
  ViewportId : Key
deriving DecidableEq, Repr

/-- Source `FocusOrder::next` on the remaining slice of the focus stack; `none`
entries model null window pointers. Emits the next viewport-owning window's
name and key together with the rest of the slice. -/
def nextFocus : List (Option ImGuiWindow) → Option ((String × Key) × List (Option ImGuiWindow))
  | [] => none
  | ret :: rest =>
    match ret with
    | some window =>
      if window.ViewportOwned then some ((window.Name, window.ViewportId), rest)
      else nextFocus rest
    | none => nextFocus rest

/-- Exhausting the `FocusOrder` iterator: every item `next` yields, in order. -/
def collectFocus : List (Option ImGuiWindow) → List (String × Key)
  | [] => []
  | ret :: rest =>
    match ret with
    | some window =>
      if window.ViewportOwned then (window.Name, window.ViewportId) :: collectFocus rest
      else collectFocus rest
    | none => collectFocus rest

/-! Concrete states used by the witnesses and counterexamples. -/

/-- A native window as materialised for the initial main window. -/
def demoWindow : NativeWindow := NativeWindow.with_surface (freshNative true)

/-- The snapshot the recache pass computes for `demoWindow`. -/
def demoData : CacheData := mkCacheData demoWindow

/-- The proxy right after the initial main-window binding (`use_window`). -/
def initProxy : Proxy := (Proxy.new.use_window 7).2

/-- A manager owning the single initial window under identifier `7`. -/
def initManager : Manager := { windows := [(7, demoWindow)], nextWid := 8 }

/-- A proxy one drain later: key `1` carries a populated snapshot. -/
def cachedProxy : Proxy :=
  { windows := [(1, { wid := 7, data := some demoData })], commands := [], next_id := 2 }

/-- The main native window after a 400x300 resize drain. -/
def resizedWindow : NativeWindow :=
  { native := { innerWidth := 400, innerHeight := 300, outerX := 0, outerY := 0,
                title := "", visible := true, decorated := true },
    outlet := { scWidth := 0, scHeight := 0, swapChain := none },
    focus := true, minimized := false }

/-- Proxy state after draining the 400x300 SetSize command on key 1. -/
def resizedProxy : Proxy :=
  { windows := [(1, { wid := 7, data := some (mkCacheData resizedWindow) })],
    commands := [], next_id := 2 }

/-- Manager state after draining the 400x300 SetSize command. -/
def resizedManager : Manager := { windows := [(7, resizedWindow)], nextWid := 8 }

/-- Proxy state after draining a DestroyWindow command on the only key. -/
def destroyedProxy : Proxy := { windows := [], commands := [], next_id := 2 }

/-- Manager state after draining a DestroyWindow command on the only window. -/
def destroyedManager : Manager := { windows := [], nextWid := 8 }

/-- An acquisition that always fails (surface temporarily unavailable). -/
def acquireFail : Nat → Nat → Nat → AcqResult := fun _ _ _ => .err 0

/-- Source `demoViewport` after one draw attempt whose acquisition failed. -/
def vpAfterFail : WgpuViewport :=
  { window := freshNative true, outlet := .SwapChain 3 800 600, waits_redraw := false }

/-- An acquisition that always yields a frame. -/
def acquireOk : Nat → Nat → Nat → AcqResult := fun _ _ _ => .ok 0

/-- A redraw-pending viewport with a bare surface. -/
def demoViewport : WgpuViewport :=
  { window := freshNative true, outlet := .Surface 3, waits_redraw := true }

/-! Association-list lemmas. -/

theorem alookup_eq_none {β : Type} (k : Nat) (l : List (Nat × β)) :
    alookup k l = none ↔ k ∉ l.map Prod.fst := by
  induction l with
  | nil => simp [alookup]
  | cons hd tl ih =>
    obtain ⟨k', v⟩ := hd
    by_cases h : k = k' <;> simp [alookup, h, ih]

theorem alookup_mem {β : Type} {k : Nat} {v : β} :
    ∀ {l : List (Nat × β)}, alookup k l = some v → (k, v) ∈ l := by
  intro l
  induction l with
  | nil => intro h; simp [alookup] at h
  | cons hd tl ih =>
    obtain ⟨k', v'⟩ := hd
    intro h
    by_cases hk : k = k'
    · subst hk
      simp [alookup] at h
      subst h
      exact List.mem_cons_self _ _
    · simp [alookup, hk] at h
      exact List.mem_cons_of_mem _ (ih h)

theorem exists_alookup_of_mem_keys {β : Type} {k : Nat} {l : List (Nat × β)}
    (h : k ∈ l.map Prod.fst) : ∃ v, alookup k l = some v := by
  cases hl : alookup k l with
  | some v => exact ⟨v, rfl⟩
  | none => exact absurd h ((alookup_eq_none k l).mp hl)

theorem upsert_of_not_mem {β : Type} {v : β} {k : Nat} :
    ∀ {l : List (Nat × β)}, k ∉ l.map Prod.fst → upsert k v l = l ++ [(k, v)] := by
  intro l
  induction l with
  | nil => intro _; rfl
  | cons hd tl ih =>
    obtain ⟨k', v'⟩ := hd
    intro h
    simp only [List.map_cons, List.mem_cons] at h
    push_neg at h
    simp [upsert, h.1, ih h.2]

theorem eraseKey_map_fst {β : Type} (k : Nat) :
    ∀ (l : List (Nat × β)), (eraseKey k l).map Prod.fst = (l.map Prod.fst).erase k := by
  intro l
  induction l with
  | nil => rfl
  | cons hd tl ih =>
    obtain ⟨k', v'⟩ := hd
    by_cases h : k = k'
    · subst h
      simp [eraseKey, List.erase_cons_head]
    · have h' : k' ≠ k := fun hc => h hc.symm
      simp [eraseKey, h, List.erase_cons_tail, h', ih]

theorem mem_of_mem_eraseKey {β : Type} {k : Nat} {e : Nat × β} :
    ∀ {l : List (Nat × β)}, e ∈ eraseKey k l → e ∈ l := by
  intro l
  induction l with
  | nil => intro h; simp [eraseKey] at h
  | cons hd tl ih =>
    obtain ⟨k', v'⟩ := hd
    intro h
    by_cases hk : k = k'
    · simp [eraseKey, hk] at h
      exact List.mem_cons_of_mem _ h
    · simp only [eraseKey, if_neg hk, List.mem_cons] at h
      rcases h with h | h
      · exact h ▸ List.mem_cons_self _ _
      · exact List.mem_cons_of_mem _ (ih h)

theorem modifyValue_map_fst {β : Type} (k : Nat) (f : β → β) :
    ∀ (l : List (Nat × β)), (modifyValue k f l).map Prod.fst = l.map Prod.fst := by
  intro l
  induction l with
  | nil => rfl
  | cons hd tl ih =>
    obtain ⟨k', v'⟩ := hd
    by_cases h : k = k' <;> simp [modifyValue, h, ih]

theorem alookup_modifyValue_self {β : Type} (k : Nat) (f : β → β) :
    ∀ (l : List (Nat × β)), alookup k (modifyValue k f l) = (alookup k l).map f := by
  intro l
  induction l with
  | nil => rfl
  | cons hd tl ih =>
    obtain ⟨k', v'⟩ := hd
    by_cases h : k = k' <;> simp [modifyValue, alookup, h, ih]

theorem erase_aligned {β γ : Type} (f : β → Nat) :
    ∀ (pl : List (Nat × β)) (ml : List (Nat × γ)) (k : Nat) (c : β),
      ml.map Prod.fst = pl.map (fun e => f e.2) →
      (ml.map Prod.fst).Nodup →
      alookup k pl = some c →
      (eraseKey (f c) ml).map Prod.fst = (eraseKey k pl).map (fun e => f e.2) := by
  intro pl
  induction pl with
  | nil =>
    intro ml k c _ _ h
    simp [alookup] at h
  | cons hd tl ih =>
    obtain ⟨k₀, c₀⟩ := hd
    intro ml k c hcorr hnd hl
    cases ml with
    | nil => simp at hcorr
    | cons mhd mtl =>
      obtain ⟨w₀, g₀⟩ := mhd
      simp only [List.map_cons, List.cons.injEq] at hcorr
      obtain ⟨hw₀, hcorr'⟩ := hcorr
      by_cases hk : k = k₀
      · subst hk
        simp [alookup] at hl
        subst hl
        simp [eraseKey, hw₀]
        exact hcorr'
      · simp only [alookup, if_neg hk] at hl
        subst hw₀
        have hmem : f c ∈ mtl.map Prod.fst := by
          rw [hcorr']
          exact List.mem_map_of_mem _ (alookup_mem hl)
        have hnd' : f c₀ ∉ mtl.map Prod.fst ∧ (mtl.map Prod.fst).Nodup := by
          rw [List.map_cons] at hnd
          exact List.nodup_cons.mp hnd
        have hne : f c ≠ f c₀ := fun hcon => hnd'.1 (hcon ▸ hmem)
        simp only [eraseKey, if_neg hne, if_neg hk, List.map_cons]
        exact congrArg (f c₀ :: ·) (ih mtl k c hcorr' hnd'.2 hl)

/-! Recache-pass lemmas. -/

theorem omapM_recache_exists (m : Manager) :
    ∀ (pl : List (Key × Cache)),
      (∀ e ∈ pl, e.2.wid ∈ m.windows.map Prod.fst) →
      ∃ pl', omapM (recacheEntry m) pl = some pl' ∧
        pl'.map Prod.fst = pl.map Prod.fst ∧
        pl'.map (fun e => e.2.wid) = pl.map (fun e => e.2.wid) := by
  intro pl
  induction pl with
  | nil => intro _; exact ⟨[], rfl, rfl, rfl⟩
  | cons hd tl ih =>
    intro h
    obtain ⟨k₀, c₀⟩ := hd
    obtain ⟨w, hw⟩ := exists_alookup_of_mem_keys (h (k₀, c₀) (List.mem_cons_self _ _))
    obtain ⟨tl', htl, h1, h2⟩ := ih (fun e he => h e (List.mem_cons_of_mem _ he))
    refine ⟨(k₀, { wid := c₀.wid, data := some (mkCacheData w) }) :: tl', ?_, ?_, ?_⟩
    · simp [omapM, recacheEntry, hw, htl]
    · simp [h1]
    · simp [h2]

theorem omapM_recache_mem (m : Manager) :
    ∀ (pl pl' : List (Key × Cache)), omapM (recacheEntry m) pl = some pl' →
      ∀ e ∈ pl', ∃ w, alookup e.2.wid m.windows = some w ∧
        e.2.data = some (mkCacheData w) := by
  intro pl
  induction pl with
  | nil =>
    intro pl' h e he
    simp [omapM] at h
    subst h
    simp at he
  | cons hd tl ih =>
    intro pl' h e he
    obtain ⟨k₀, c₀⟩ := hd
    cases hw : alookup c₀.wid m.windows with
    | none => simp [omapM, recacheEntry, hw] at h
    | some w =>
      cases htl : omapM (recacheEntry m) tl with
      | none => simp [omapM, recacheEntry, hw, htl] at h
      | some tl' =>
        simp [omapM, recacheEntry, hw, htl] at h
        subst h
        rcases List.mem_cons.mp he with he | he
        · subst he
          exact ⟨w, hw, rfl⟩
        · exact ih tl' htl e he

theorem omapM_recache_alookup (m : Manager) :
    ∀ (pl pl' : List (Key × Cache)) (k : Key) (c : Cache),
      omapM (recacheEntry m) pl = some pl' → alookup k pl = some c →
      ∃ w, alookup c.wid m.windows = some w ∧
        alookup k pl' = some { wid := c.wid, data := some (mkCacheData w) } := by
  intro pl
  induction pl with
  | nil =>
    intro pl' k c _ hl
    simp [alookup] at hl
  | cons hd tl ih =>
    intro pl' k c h hl
    obtain ⟨k₀, c₀⟩ := hd
    cases hw : alookup c₀.wid m.windows with
    | none => simp [omapM, recacheEntry, hw] at h
    | some w =>
      cases htl : omapM (recacheEntry m) tl with
      | none => simp [omapM, recacheEntry, hw, htl] at h
      | some tl' =>
        simp [omapM, recacheEntry, hw, htl] at h
        subst h
        by_cases hk : k = k₀
        · subst hk
          simp [alookup] at hl
          subst hl
          exact ⟨w, hw, by simp [alookup]⟩
        · simp only [alookup, if_neg hk] at hl ⊢
          exact ih tl' k c htl hl

theorem omapM_recache_map_fst (m : Manager) :
    ∀ (pl pl' : List (Key × Cache)), omapM (recacheEntry m) pl = some pl' →
      pl'.map Prod.fst = pl.map Prod.fst ∧
      pl'.map (fun e => e.2.wid) = pl.map (fun e => e.2.wid) := by
  intro pl
  induction pl with
  | nil =>
    intro pl' h
    simp [omapM] at h
    subst h
    exact ⟨rfl, rfl⟩
  | cons hd tl ih =>
    intro pl' h
    obtain ⟨k₀, c₀⟩ := hd
    cases hw : alookup c₀.wid m.windows with
    | none => simp [omapM, recacheEntry, hw] at h
    | some w =>
      cases htl : omapM (recacheEntry m) tl with
      | none => simp [omapM, recacheEntry, hw, htl] at h
      | some tl' =>
        simp [omapM, recacheEntry, hw, htl] at h
        subst h
        obtain ⟨h1, h2⟩ := ih tl' htl
        exact ⟨by simp [h1], by simp [h2]⟩

/-! Drain-loop lemmas. -/

theorem applyCommand_pre {st st' : Proxy × Manager} {c : Command}
    (h : applyCommand st c = some st') :
    st'.1.commands = st.1.commands ∧ st'.1.next_id = st.1.next_id := by
  obtain ⟨p, m⟩ := st
  unfold applyCommand at h
  simp only [Manager.spawn_native_window] at h
  split at h
  all_goals try split at h
  all_goals try split at h
  all_goals (cases h <;> exact ⟨rfl, rfl⟩)

theorem runCommands_pre :
    ∀ (cs : List Command) (st st' : Proxy × Manager),
      runCommands st cs = some st' →
      st'.1.commands = st.1.commands ∧ st'.1.next_id = st.1.next_id := by
  intro cs
  induction cs with
  | nil =>
    intro st st' h
    simp [runCommands] at h
    subst h
    exact ⟨rfl, rfl⟩
  | cons c rest ih =>
    intro st st' h
    unfold runCommands at h
    cases hac : applyCommand st c with
    | none => rw [hac] at h; cases h
    | some st₁ =>
      rw [hac] at h
      obtain ⟨h1, h2⟩ := applyCommand_pre hac
      obtain ⟨h3, h4⟩ := ih st₁ st' h
      exact ⟨h3.trans h1, h4.trans h2⟩

theorem update_elim {p : Proxy} {m : Manager} {p₂ : Proxy} {m₂ : Manager}
    (h : Proxy.update p m = some (p₂, m₂)) :
    ∃ p₁ ws, runCommands ({ p with commands := [] }, m) p.commands = some (p₁, m₂) ∧
      omapM (recacheEntry m₂) p₁.windows = some ws ∧
      p₂ = { p₁ with windows := ws } := by
  unfold Proxy.update at h
  split at h
  · cases h
  · rename_i p₁ m₁ hrc
    split at h
    · cases h
    · rename_i ws hom
      simp only [Option.some.injEq, Prod.mk.injEq] at h
      obtain ⟨hp, hm⟩ := h
      subst hm
      exact ⟨p₁, ws, hrc, hom, hp.symm⟩

theorem update_commands_nil {p : Proxy} {m : Manager} {p₂ : Proxy} {m₂ : Manager}
    (h : Proxy.update p m = some (p₂, m₂)) : p₂.commands = [] := by
  obtain ⟨p₁, ws, hrc, _, hp⟩ := update_elim h
  have h1 := (runCommands_pre _ _ _ hrc).1
  subst hp
  simpa using h1

theorem update_next_id {p : Proxy} {m : Manager} {p₂ : Proxy} {m₂ : Manager}
    (h : Proxy.update p m = some (p₂, m₂)) : p₂.next_id = p.next_id := by
  obtain ⟨p₁, ws, hrc, _, hp⟩ := update_elim h
  have h2 := (runCommands_pre _ _ _ hrc).2
  subst hp
  simpa using h2

theorem Reached.one_le {p : Proxy} (h : Reached p) : 1 ≤ p.next_id := by
  induction h with
  | new => simp [Proxy.new]
  | use_window wid _ ih =>
    simp only [Proxy.use_window, Proxy.next_key]
    exact Nat.le_succ_of_le ih
  | create_window d _ ih =>
    simp only [Proxy.create_window, Proxy.next_key]
    exact Nat.le_succ_of_le ih
  | destroy_window k _ ih => exact ih
  | show_window k _ ih => exact ih
  | set_position k v _ ih => exact ih
  | set_size k v _ ih => exact ih
  | set_focus k _ ih => exact ih
  | set_title k t _ ih => exact ih
  | update _ hupd ih => exact (update_next_id hupd) ▸ ih

/-! Net-effect lemmas for create/destroy sequences. -/

theorem netEffect_none : ∀ (ops : List GuiOp), List.foldl specStep none ops = none := by
  intro ops
  induction ops with
  | nil => rfl
  | cons op rest ih =>
    have h : specStep none op = none := by cases op <;> rfl
    simp only [List.foldl, h]
    exact ih

theorem issueAll_spec :
    ∀ (ops : List GuiOp) (p : Proxy),
      (issueAll p ops).windows = p.windows ∧
      (issueAll p ops).commands = p.commands ++ encode p.next_id ops := by
  intro ops
  induction ops with
  | nil => intro p; simp [issueAll, encode]
  | cons op rest ih =>
    intro p
    cases op with
    | create d =>
      obtain ⟨h1, h2⟩ := ih (p.create_window d).2
      refine ⟨?_, ?_⟩
      · show (issueAll (p.create_window d).2 rest).windows = p.windows
        rw [h1]
        simp [Proxy.create_window, Proxy.next_key]
      · show (issueAll (p.create_window d).2 rest).commands
            = p.commands ++ encode p.next_id (.create d :: rest)
        rw [h2]
        simp [Proxy.create_window, Proxy.next_key, encode]
    | destroy k =>
      obtain ⟨h1, h2⟩ := ih (p.destroy_window k)
      refine ⟨?_, ?_⟩
      · show (issueAll (p.destroy_window k) rest).windows = p.windows
        rw [h1]
        simp [Proxy.destroy_window]
      · show (issueAll (p.destroy_window k) rest).commands
            = p.commands ++ encode p.next_id (.destroy k :: rest)
        rw [h2]
        simp [Proxy.destroy_window, encode]

theorem runCommands_encode :
    ∀ (ops : List GuiOp) (p : Proxy) (m : Manager) (n : Key) (live' : List Key) (n' : Key),
      m.windows.map Prod.fst = p.windows.map (fun e => e.2.wid) →
      (∀ k ∈ p.windows.map Prod.fst, k < n) →
      (∀ w ∈ m.windows.map Prod.fst, w < m.nextWid) →
      (m.windows.map Prod.fst).Nodup →
      netEffect (p.windows.map Prod.fst) n ops = some (live', n') →
      ∃ p' m', runCommands (p, m) (encode n ops) = some (p', m') ∧
        p'.windows.map Prod.fst = live' ∧
        m'.windows.map Prod.fst = p'.windows.map (fun e => e.2.wid) ∧
        p'.commands = p.commands ∧
        p'.next_id = p.next_id := by
  intro ops
  induction ops with
  | nil =>
    intro p m n live' n' hcorr _ _ _ hnet
    simp [netEffect] at hnet
    exact ⟨p, m, by simp [encode, runCommands], hnet.1, hcorr, rfl, rfl⟩
  | cons op rest ih =>
    intro p m n live' n' hcorr hlt hwlt hnd hnet
    cases op with
    | create d =>
      have hfreshp : n ∉ p.windows.map Prod.fst := fun hmem => lt_irrefl n (hlt n hmem)
      have hfreshm : m.nextWid ∉ m.windows.map Prod.fst := fun hmem => lt_irrefl _ (hwlt _ hmem)
      have hpw : upsert n { wid := m.nextWid, data := none } p.windows
          = p.windows ++ [(n, { wid := m.nextWid, data := none })] := upsert_of_not_mem hfreshp
      have hmw : upsert m.nextWid (NativeWindow.with_surface (freshNative d)) m.windows
          = m.windows ++ [(m.nextWid, NativeWindow.with_surface (freshNative d))] :=
        upsert_of_not_mem hfreshm
      obtain ⟨p', m', hrun, hl, hcr, hcm, hni⟩ := ih
        { p with windows := upsert n { wid := m.nextWid, data := none } p.windows }
        { windows := upsert m.nextWid (NativeWindow.with_surface (freshNative d)) m.windows,
          nextWid := m.nextWid + 1 }
        (n + 1) live' n'
        (by simp [hpw, hmw, hcorr])
        (by
          intro k hkm
          rw [hpw, List.map_append] at hkm
          rcases List.mem_append.mp hkm with hkm | hkm
          · exact Nat.lt_succ_of_lt (hlt k hkm)
          · rw [List.map_singleton, List.mem_singleton] at hkm
            subst hkm
            exact Nat.lt_succ_self _)
        (by
          intro w hwm
          rw [hmw, List.map_append] at hwm
          rcases List.mem_append.mp hwm with hwm | hwm
          · exact Nat.lt_succ_of_lt (hwlt w hwm)
          · rw [List.map_singleton, List.mem_singleton] at hwm
            subst hwm
            exact Nat.lt_succ_self _)
        (by
          rw [hmw, List.map_append, List.map_singleton, List.nodup_append]
          refine ⟨hnd, List.nodup_singleton _, ?_⟩
          intro a ha hb
          rw [List.mem_singleton] at hb
          subst hb
          exact hfreshm ha)
        (by
          rw [hpw, List.map_append, List.map_singleton]
          simpa [netEffect, specStep] using hnet)
      refine ⟨p', m', ?_, hl, hcr, hcm, hni⟩
      have hstep : runCommands (p, m) (encode n (GuiOp.create d :: rest))
          = runCommands
              ({ p with windows := upsert n { wid := m.nextWid, data := none } p.windows },
               { windows := upsert m.nextWid (NativeWindow.with_surface (freshNative d)) m.windows,
                 nextWid := m.nextWid + 1 })
              (encode (n + 1) rest) := by
        simp [encode, runCommands, applyCommand, Manager.spawn_native_window]
      rw [hstep]
      exact hrun
    | destroy k =>
      by_cases hk : k ∈ p.windows.map Prod.fst
      · obtain ⟨c, hc⟩ := exists_alookup_of_mem_keys hk
        have hcorr₁ : (eraseKey c.wid m.windows).map Prod.fst
            = (eraseKey k p.windows).map (fun e => e.2.wid) :=
          erase_aligned Cache.wid p.windows m.windows k c hcorr hnd hc
        obtain ⟨p', m', hrun, hl, hcr, hcm, hni⟩ := ih
          { p with windows := eraseKey k p.windows }
          { m with windows := eraseKey c.wid m.windows }
          n live' n'
          hcorr₁
          (by
            intro k' hk'
            simp only [eraseKey_map_fst] at hk'
            exact hlt k' (List.mem_of_mem_erase hk'))
          (by
            intro w hw
            simp only [eraseKey_map_fst] at hw
            exact hwlt w (List.mem_of_mem_erase hw))
          (by
            simp only [eraseKey_map_fst]
            exact hnd.erase _)
          (by
            simp only [eraseKey_map_fst]
            simpa [netEffect, specStep, hk] using hnet)
        refine ⟨p', m', ?_, hl, hcr, hcm, hni⟩
        have hstep : runCommands (p, m) (encode n (GuiOp.destroy k :: rest))
            = runCommands
                ({ p with windows := eraseKey k p.windows },
                 { m with windows := eraseKey c.wid m.windows })
                (encode n rest) := by
          simp [encode, runCommands, applyCommand, hc]
        rw [hstep]
        exact hrun
      · exfalso
        have hnone : netEffect (p.windows.map Prod.fst) n (GuiOp.destroy k :: rest) = none := by
          simp [netEffect, List.foldl, specStep, hk, netEffect_none]
        rw [hnone] at hnet
        cases hnet

/-! Claim theorems. -/

/-- Claim C1: for every well-formed sequence of createWindow/destroyWindow
calls issued on the proxy before any drain, one drain applies the queued
commands in enqueue (FIFO) order, and afterwards the live viewports of the
window manager exactly match the net effect of the sequence (creates minus
destroys, respecting order): the proxy's live keys are exactly the net-effect
keys and the manager's windows are exactly their associated native windows. -/
theorem drain_applies_net_effect
    (p : Proxy) (m : Manager) (ops : List GuiOp) (live' : List Key) (n' : Key)
    (hcmd : p.commands = [])
    (hcorr : m.windows.map Prod.fst = p.windows.map (fun e => e.2.wid))
    (hlt : ∀ k ∈ p.windows.map Prod.fst, k < p.next_id)
    (hwlt : ∀ w ∈ m.windows.map Prod.fst, w < m.nextWid)
    (hnd : (m.windows.map Prod.fst).Nodup)
    (hnet : netEffect (p.windows.map Prod.fst) p.next_id ops = some (live', n')) :
    ∃ p' m', Proxy.update (issueAll p ops) m = some (p', m') ∧
      p'.windows.map Prod.fst = live' ∧
      m'.windows.map Prod.fst = p'.windows.map (fun e => e.2.wid) := by
  obtain ⟨hw, hcq⟩ := issueAll_spec ops p
  have hqw : ({ issueAll p ops with commands := [] } : Proxy).windows = p.windows := hw
  obtain ⟨p₁, m₁, hrun, hl, hcr, _, _⟩ :=
    runCommands_encode ops { issueAll p ops with commands := [] } m p.next_id live' n'
      (by rw [hqw]; exact hcorr)
      (by rw [hqw]; exact hlt)
      hwlt hnd
      (by rw [hqw]; exact hnet)
  have hwid : ∀ e ∈ p₁.windows, e.2.wid ∈ m₁.windows.map Prod.fst := by
    intro e he
    rw [hcr]
    exact List.mem_map_of_mem _ he
  obtain ⟨ws, homp, hfst, hwids⟩ := omapM_recache_exists m₁ p₁.windows hwid
  refine ⟨{ p₁ with windows := ws }, m₁, ?_, ?_, ?_⟩
  · simp only [Proxy.update, hcq, hcmd, List.nil_append, hrun, homp]
  · exact hfst.trans hl
  · exact hcr.trans hwids.symm

/-- Witness for C1: from the initial state, create two windows and destroy
the second minted key; the drain leaves keys 1 and 3 live. -/
theorem drain_applies_net_effect_witness :
    ∃ p' m', Proxy.update (issueAll initProxy
        [GuiOp.create true, GuiOp.create false, GuiOp.destroy 2]) initManager = some (p', m') ∧
      p'.windows.map Prod.fst = [1, 3] ∧
      m'.windows.map Prod.fst = p'.windows.map (fun e => e.2.wid) :=
  drain_applies_net_effect initProxy initManager
    [GuiOp.create true, GuiOp.create false, GuiOp.destroy 2] [1, 3] 4
    (by decide) (by decide) (by decide) (by decide) (by decide) (by decide)

/-- Claim C2: after every drain — including a drain with an empty command
queue — the proxy's cache holds a populated entry for every live key,
recomputed from the native window's current geometry, focus and minimized
flags, and the command queue is empty. -/
theorem drain_refreshes_cache_and_clears_queue
    (p : Proxy) (m : Manager) (p₂ : Proxy) (m₂ : Manager)
    (h : Proxy.update p m = some (p₂, m₂)) :
    p₂.commands = [] ∧
    ∀ e ∈ p₂.windows, ∃ w, alookup e.2.wid m₂.windows = some w ∧
      e.2.data = some (mkCacheData w) := by
  obtain ⟨p₁, ws, hrc, hom, hp⟩ := update_elim h
  refine ⟨update_commands_nil h, ?_⟩
  intro e he
  subst hp
  exact omapM_recache_mem m₂ p₁.windows ws hom e he

/-- Witness for C2: a drain of the initial state with an empty command queue
still populates the cache entry of the main window's key. -/
theorem drain_refreshes_cache_and_clears_queue_witness :
    cachedProxy.commands = [] ∧
    ∀ e ∈ cachedProxy.windows, ∃ w, alookup e.2.wid initManager.windows = some w ∧
      e.2.data = some (mkCacheData w) :=
  drain_refreshes_cache_and_clears_queue initProxy initManager cachedProxy initManager
    (by decide)

/-- Claim C3: each of getPosition, getSize, getFocus and getMinimized fails
with the stale-read condition whenever the key's cache entry is absent (no
entry at all, or an entry without data); no stale or default value is
returned. -/
theorem stale_read_fails (p : Proxy) (k : Key)
    (h : alookup k p.windows = none ∨ ∃ c, alookup k p.windows = some c ∧ c.data = none) :
    p.get_position k = none ∧ p.get_size k = none ∧
    p.get_focus k = none ∧ p.get_minimized k = none := by
  have hd : p.expect_data_from_key k = none := by
    rcases h with h | ⟨c, hc, hdata⟩
    · simp [Proxy.expect_data_from_key, h]
    · simp [Proxy.expect_data_from_key, hc, hdata]
  simp [Proxy.get_position, Proxy.get_size, Proxy.get_focus, Proxy.get_minimized, hd]

/-- Witness for C3: the key minted by the initial main-window binding has no
cache data before the first drain, so all four reads fail. -/
theorem stale_read_fails_witness :
    initProxy.get_position 1 = none ∧ initProxy.get_size 1 = none ∧
    initProxy.get_focus 1 = none ∧ initProxy.get_minimized 1 = none :=
  stale_read_fails initProxy 1 (Or.inr ⟨{ wid := 7, data := none }, by decide, rfl⟩)

/-- Claim C4: every key minted by the proxy (by createWindow or the initial
main-window binding) is the previous counter value, the counter starts at 1
and advances by one per mint, so minted keys are strictly increasing and
never equal the reserved sentinel 0. -/
theorem minted_keys_monotone_nonzero (p : Proxy) (h : Reached p) :
    Proxy.new.next_id = 1 ∧
    (∀ d, (p.create_window d).1 = p.next_id ∧
      (p.create_window d).2.next_id = p.next_id + 1 ∧
      (p.create_window d).1 ≠ 0) ∧
    (∀ wid, (p.use_window wid).1 = p.next_id ∧
      (p.use_window wid).2.next_id = p.next_id + 1 ∧
      (p.use_window wid).1 ≠ 0) := by
  have h1 := h.one_le
  refine ⟨rfl, ?_, ?_⟩
  · intro d
    refine ⟨rfl, rfl, ?_⟩
    show p.next_id ≠ 0
    exact Nat.one_le_iff_ne_zero.mp h1
  · intro wid
    refine ⟨rfl, rfl, ?_⟩
    show p.next_id ≠ 0
    exact Nat.one_le_iff_ne_zero.mp h1

/-- Witness for C4 at the freshly constructed proxy. -/
theorem minted_keys_monotone_nonzero_witness :
    Proxy.new.next_id = 1 ∧
    (Proxy.new.create_window true).1 = Proxy.new.next_id ∧
    (Proxy.new.create_window true).1 ≠ 0 ∧
    (Proxy.new.use_window 7).1 ≠ 0 := by
  obtain ⟨h1, h2, h3⟩ := minted_keys_monotone_nonzero Proxy.new Reached.new
  exact ⟨h1, (h2 true).1, (h2 true).2.2, (h3 7).2.2⟩

/-- Claim C5: on a key with a populated cache entry, setSize makes getSize
fail (absent cache entry) until the next drain; after the drain, getSize
returns the native window's post-resize inner size, and draining the SetSize
command also clears that viewport's swap chain. -/
theorem set_size_invalidates_then_refreshes
    (p : Proxy) (m : Manager) (k : Key) (s : ImVec2) (c : Cache) (d : CacheData)
    (p₂ : Proxy) (m₂ : Manager)
    (hc : alookup k p.windows = some c)
    (_hd : c.data = some d)
    (hcmd : p.commands = [])
    (hupd : Proxy.update (p.set_size k s) m = some (p₂, m₂)) :
    (p.set_size k s).get_size k = none ∧
    ∃ w₂, alookup c.wid m₂.windows = some w₂ ∧
      w₂.native.innerWidth = intToU32 s.x ∧
      w₂.native.innerHeight = intToU32 s.y ∧
      w₂.outlet.swapChain = none ∧
      p₂.get_size k = some { x := (w₂.native.innerWidth : Int),
                             y := (w₂.native.innerHeight : Int) } := by
  have hlk1 : alookup k (modifyValue k (fun c => { c with data := none }) p.windows)
      = some { wid := c.wid, data := none } := by
    rw [alookup_modifyValue_self]
    simp [hc]
  refine ⟨?_, ?_⟩
  · simp [Proxy.get_size, Proxy.expect_data_from_key, Proxy.set_size, Proxy.make_dirty, hlk1]
  · obtain ⟨p₁, ws, hrc, hom, hp⟩ := update_elim hupd
    have hqcmd : (p.set_size k s).commands = [{ key := k, kind := Kind.SetSize s }] := by
      simp [Proxy.set_size, Proxy.make_dirty, hcmd]
    rw [hqcmd] at hrc
    cases hw : alookup c.wid m.windows with
    | none =>
      exfalso
      simp [runCommands, applyCommand, Proxy.set_size, Proxy.make_dirty, hlk1, hw] at hrc
    | some w =>
      simp only [runCommands, applyCommand, Proxy.set_size, Proxy.make_dirty, hlk1, hw,
        Option.some.injEq, Prod.mk.injEq] at hrc
      obtain ⟨hp₁, hm₂⟩ := hrc
      have hm₂w : m₂.windows = modifyValue c.wid (fun w =>
          { w with native := { w.native with innerWidth := intToU32 s.x,
                                             innerHeight := intToU32 s.y },
                   outlet := { w.outlet with swapChain := none } }) m.windows := by
        rw [← hm₂]
      have hlkm : alookup c.wid m₂.windows = some
          { w with native := { w.native with innerWidth := intToU32 s.x,
                                             innerHeight := intToU32 s.y },
                   outlet := { w.outlet with swapChain := none } } := by
        rw [hm₂w, alookup_modifyValue_self, hw]
        rfl
      have hlkp₁ : alookup k p₁.windows = some { wid := c.wid, data := none } := by
        rw [← hp₁]
        exact hlk1
      obtain ⟨w', hw', hws⟩ := omapM_recache_alookup m₂ p₁.windows ws k
        { wid := c.wid, data := none } hom hlkp₁
      have hweq : w' = { w with native := { w.native with innerWidth := intToU32 s.x,
                                                          innerHeight := intToU32 s.y },
                                outlet := { w.outlet with swapChain := none } } :=
        Option.some.inj (hw'.symm.trans hlkm)
      refine ⟨w', hw', ?_, ?_, ?_, ?_⟩
      · rw [hweq]
      · rw [hweq]
      · rw [hweq]
      · rw [hp]
        simp [Proxy.get_size, Proxy.expect_data_from_key, hws, mkCacheData, hweq]

/-- Witness for C5: resize the main window to 400x300 and drain. -/
theorem set_size_invalidates_then_refreshes_witness :
    (cachedProxy.set_size 1 { x := 400, y := 300 }).get_size 1 = none ∧
    ∃ w₂, alookup 7 resizedManager.windows = some w₂ ∧
      w₂.native.innerWidth = intToU32 400 ∧
      w₂.native.innerHeight = intToU32 300 ∧
      w₂.outlet.swapChain = none ∧
      resizedProxy.get_size 1 = some { x := (w₂.native.innerWidth : Int),
                                       y := (w₂.native.innerHeight : Int) } :=
  set_size_invalidates_then_refreshes cachedProxy initManager 1 { x := 400, y := 300 }
    { wid := 7, data := some demoData } demoData resizedProxy resizedManager
    (by decide) (by decide) (by decide) (by decide)

/-- Counterexample to C6 as stated: between destroyWindow and the drain,
reads on the destroyed key are still served from the cache, not rejected. -/
theorem destroy_pending_read_served_counterexample :
    (cachedProxy.destroy_window 1).get_size 1 = some demoData.size ∧
    (cachedProxy.destroy_window 1).get_size 1 ≠ none :=
  ⟨by decide, by decide⟩

/-- Claim C6 (amended): destroying a key and draining removes both its native
window from the manager and its cache entry from the proxy; after the drain
every read on the key fails and a queued mutation or destroy targeting it
makes the next drain fail. (Between destroyWindow and the drain, reads are
still served from the existing cache entry — see the counterexample.) -/
theorem destroy_then_drain_rejects
    (p : Proxy) (m : Manager) (k : Key) (c : Cache) (p₂ : Proxy) (m₂ : Manager) (s : ImVec2)
    (hc : alookup k p.windows = some c)
    (hcmd : p.commands = [])
    (hndk : (p.windows.map Prod.fst).Nodup)
    (hndw : (m.windows.map Prod.fst).Nodup)
    (hupd : Proxy.update (p.destroy_window k) m = some (p₂, m₂)) :
    alookup k p₂.windows = none ∧
    alookup c.wid m₂.windows = none ∧
    p₂.get_position k = none ∧ p₂.get_size k = none ∧
    p₂.get_focus k = none ∧ p₂.get_minimized k = none ∧
    Proxy.update (p₂.set_size k s) m₂ = none ∧
    Proxy.update (p₂.destroy_window k) m₂ = none := by
  obtain ⟨p₁, ws, hrc, hom, hp⟩ := update_elim hupd
  have hqcmd : (p.destroy_window k).commands = [{ key := k, kind := Kind.DestroyWindow }] := by
    simp [Proxy.destroy_window, hcmd]
  rw [hqcmd] at hrc
  simp only [runCommands, applyCommand, Proxy.destroy_window, hc,
    Option.some.injEq, Prod.mk.injEq] at hrc
  obtain ⟨hp₁, hm₂⟩ := hrc
  have hpw : p₁.windows = eraseKey k p.windows := by rw [← hp₁]
  have hm₂w : m₂.windows = eraseKey c.wid m.windows := by rw [← hm₂]
  have hwsfst : ws.map Prod.fst = (p.windows.map Prod.fst).erase k := by
    rw [(omapM_recache_map_fst m₂ p₁.windows ws hom).1, hpw, eraseKey_map_fst]
  have halkp₂ : alookup k p₂.windows = none := by
    rw [hp]
    apply (alookup_eq_none k ws).mpr
    rw [hwsfst]
    intro hmem
    exact ((List.Nodup.mem_erase_iff hndk).mp hmem).1 rfl
  have halkm₂ : alookup c.wid m₂.windows = none := by
    rw [hm₂w]
    apply (alookup_eq_none _ _).mpr
    rw [eraseKey_map_fst]
    intro hmem
    exact ((List.Nodup.mem_erase_iff hndw).mp hmem).1 rfl
  have hed : p₂.expect_data_from_key k = none := by
    simp [Proxy.expect_data_from_key, halkp₂]
  have hp₂c : p₂.commands = [] := update_commands_nil hupd
  refine ⟨halkp₂, halkm₂, ?_, ?_, ?_, ?_, ?_, ?_⟩
  · simp [Proxy.get_position, hed]
  · simp [Proxy.get_size, hed]
  · simp [Proxy.get_focus, hed]
  · simp [Proxy.get_minimized, hed]
  · have hlks : alookup k (modifyValue k (fun c => { c with data := none }) p₂.windows)
        = none := by
      rw [alookup_modifyValue_self, halkp₂]
      rfl
    simp [Proxy.update, Proxy.set_size, Proxy.make_dirty, hp₂c, runCommands,
      applyCommand, hlks]
  · simp [Proxy.update, Proxy.destroy_window, hp₂c, runCommands, applyCommand, halkp₂]

/-- Witness for C6 (amended): destroy the only key and drain. -/
theorem destroy_then_drain_rejects_witness :
    alookup 1 destroyedProxy.windows = none ∧
    alookup 7 destroyedManager.windows = none ∧
    destroyedProxy.get_position 1 = none ∧ destroyedProxy.get_size 1 = none ∧
    destroyedProxy.get_focus 1 = none ∧ destroyedProxy.get_minimized 1 = none ∧
    Proxy.update (destroyedProxy.set_size 1 { x := 10, y := 10 }) destroyedManager = none ∧
    Proxy.update (destroyedProxy.destroy_window 1) destroyedManager = none :=
  destroy_then_drain_rejects cachedProxy initManager 1 { wid := 7, data := some demoData }
    destroyedProxy destroyedManager { x := 10, y := 10 }
    (by decide) (by decide) (by decide) (by decide) (by decide)

/-- Counterexample to C7 as stated: setFocus clears the target key's cache
entry (the claim says it leaves it present and unchanged), while
destroyWindow leaves the populated entry untouched (the claim implies every
enqueue except showWindow, setFocus and setTitle clears it). -/
theorem set_focus_clears_cache_counterexample :
    alookup 1 (cachedProxy.set_focus 1).windows = some { wid := 7, data := none } ∧
    alookup 1 cachedProxy.windows = some { wid := 7, data := some demoData } ∧
    alookup 1 (cachedProxy.destroy_window 1).windows
      = some { wid := 7, data := some demoData } :=
  ⟨by decide, by decide, by decide⟩

/-- Claim C7 (amended): at enqueue time, setPosition, setSize and setFocus
clear the target key's cache entry (mark its data absent), while showWindow,
setTitle, destroyWindow and createWindow leave the cache untouched. -/
theorem enqueue_cache_effects
    (p : Proxy) (k : Key) (c : Cache) (v : ImVec2) (t : String) (d : Bool)
    (hc : alookup k p.windows = some c) :
    alookup k (p.set_position k v).windows = some { wid := c.wid, data := none } ∧
    alookup k (p.set_size k v).windows = some { wid := c.wid, data := none } ∧
    alookup k (p.set_focus k).windows = some { wid := c.wid, data := none } ∧
    (p.show_window k).windows = p.windows ∧
    (p.set_title k t).windows = p.windows ∧
    (p.destroy_window k).windows = p.windows ∧
    (p.create_window d).2.windows = p.windows := by
  have h1 : alookup k (modifyValue k (fun c => { c with data := none }) p.windows)
      = some { wid := c.wid, data := none } := by
    rw [alookup_modifyValue_self]
    simp [hc]
  exact ⟨h1, h1, h1, rfl, rfl, rfl, rfl⟩

/-- Witness for C7 (amended) at the populated one-entry proxy. -/
theorem enqueue_cache_effects_witness :
    alookup 1 (cachedProxy.set_position 1 { x := 5, y := 5 }).windows
      = some { wid := 7, data := none } ∧
    alookup 1 (cachedProxy.set_size 1 { x := 5, y := 5 }).windows
      = some { wid := 7, data := none } ∧
    alookup 1 (cachedProxy.set_focus 1).windows = some { wid := 7, data := none } ∧
    (cachedProxy.show_window 1).windows = cachedProxy.windows ∧
    (cachedProxy.set_title 1 "t").windows = cachedProxy.windows ∧
    (cachedProxy.destroy_window 1).windows = cachedProxy.windows ∧
    (cachedProxy.create_window true).2.windows = cachedProxy.windows :=
  enqueue_cache_effects cachedProxy 1 { wid := 7, data := some demoData }
    { x := 5, y := 5 } "t" true (by decide)

/-- Source `with_swap_chain` keeps the redraw flag and the window untouched. -/
theorem with_swap_chain_state {vp vp' : WgpuViewport} {acquire : Nat → Nat → Nat → AcqResult}
    {r : AcqResult} (h : vp.with_swap_chain acquire = some (r, vp')) :
    vp'.waits_redraw = vp.waits_redraw ∧ vp'.window = vp.window := by
  unfold WgpuViewport.with_swap_chain at h
  cases hvp : vp.outlet <;> rw [hvp] at h
  case Invalid => cases h
  case Surface a =>
    simp only [Option.some.injEq, Prod.mk.injEq] at h
    obtain ⟨_, h2⟩ := h
    subst h2
    exact ⟨rfl, rfl⟩
  case SwapChain a w hh =>
    simp only [Option.some.injEq, Prod.mk.injEq] at h
    obtain ⟨_, h2⟩ := h
    subst h2
    exact ⟨rfl, rfl⟩

/-- Any completed `on_draw` leaves the redraw flag cleared and the window
untouched. -/
theorem on_draw_state {vp vp' : WgpuViewport} {acquire : Nat → Nat → Nat → AcqResult} {b : Bool}
    (h : WgpuViewport.on_draw vp acquire = some (vp', b)) :
    vp'.waits_redraw = false ∧ vp'.window = vp.window := by
  unfold WgpuViewport.on_draw at h
  simp only [] at h
  cases hsc : WgpuViewport.with_swap_chain { vp with waits_redraw := false } acquire with
  | none => rw [hsc] at h; cases h
  | some rv =>
    obtain ⟨r, vp₁⟩ := rv
    rw [hsc] at h
    obtain ⟨hw, hwin⟩ := with_swap_chain_state hsc
    cases r with
    | ok f =>
      simp only [Option.some.injEq, Prod.mk.injEq] at h
      obtain ⟨h1, _⟩ := h
      subst h1
      exact ⟨hw, hwin⟩
    | err e =>
      simp only [Option.some.injEq, Prod.mk.injEq] at h
      obtain ⟨h1, _⟩ := h
      subst h1
      exact ⟨hw, hwin⟩

/-- Counterexample to C8 as stated: after a failed acquisition the outlet
holds the built swap chain — the code's own `surface()` accessor finds no
bare `Surface` — rather than the `Surface` state the claim asserts. -/
theorem acquire_failure_keeps_swap_chain_counterexample :
    WgpuViewport.on_draw demoViewport acquireFail = some (vpAfterFail, false) ∧
    vpAfterFail.surface = none ∧
    vpAfterFail.outlet = WgpuOutlet.SwapChain 3 800 600 :=
  ⟨by decide, by decide, by decide⟩

/-- Claim C8 (amended): a failed frame acquisition is retryable: the frame is
dropped without presenting, there is no panic, the viewport and its window
are kept, and the outlet is left holding the built swap chain (not the bare
`Surface` state), on which the next frame's acquisition is retried and can
succeed. -/
theorem acquisition_failure_retryable
    (vp : WgpuViewport) (e : Nat) (acquire : Nat → Nat → Nat → AcqResult)
    (hfail : ∀ a w h, acquire a w h = .err e)
    (hvalid : vp.outlet ≠ .Invalid) :
    ∃ vp' a w h, WgpuViewport.on_draw vp acquire = some (vp', false) ∧
      vp'.window = vp.window ∧
      vp'.outlet = .SwapChain a w h ∧
      vp'.waits_redraw = false ∧
      ∃ vp'', WgpuViewport.on_draw vp' acquireOk = some (vp'', true) := by
  cases hvp : vp.outlet with
  | Invalid => exact absurd hvp hvalid
  | Surface a =>
    refine ⟨{ vp with waits_redraw := false, outlet := .SwapChain a vp.window.innerWidth vp.window.innerHeight }, a, vp.window.innerWidth, vp.window.innerHeight, ?_, rfl, rfl, rfl, ?_⟩
    · simp [WgpuViewport.on_draw, WgpuViewport.with_swap_chain, hvp, hfail]
    · exact ⟨{ vp with waits_redraw := false, outlet := .SwapChain a vp.window.innerWidth vp.window.innerHeight }, rfl⟩
  | SwapChain a w h =>
    refine ⟨{ vp with waits_redraw := false, outlet := .SwapChain a w h }, a, w, h, ?_, rfl, rfl, rfl, ?_⟩
    · simp [WgpuViewport.on_draw, WgpuViewport.with_swap_chain, hvp, hfail]
    · exact ⟨{ vp with waits_redraw := false, outlet := .SwapChain a w h }, rfl⟩

/-- Witness for C8 (amended) on a redraw-pending viewport with a bare
surface and an always-failing acquisition. -/
theorem acquisition_failure_retryable_witness :
    ∃ vp' a w h, WgpuViewport.on_draw demoViewport acquireFail = some (vp', false) ∧
      vp'.window = demoViewport.window ∧
      vp'.outlet = .SwapChain a w h ∧
      vp'.waits_redraw = false ∧
      ∃ vp'', WgpuViewport.on_draw vp' acquireOk = some (vp'', true) :=
  acquisition_failure_retryable demoViewport 0 acquireFail (fun _ _ _ => rfl) (by decide)

/-- One emission step of the iterator prepends its item to the full run. -/
theorem nextFocus_step :
    ∀ (l : List (Option ImGuiWindow)) (item : String × Key) (rest : List (Option ImGuiWindow)),
      nextFocus l = some (item, rest) → collectFocus l = item :: collectFocus rest := by
  intro l
  induction l with
  | nil => intro item rest h; cases h
  | cons hd tl ih =>
    intro item rest h
    cases hd with
    | none =>
      simp only [nextFocus] at h
      simp only [collectFocus]
      exact ih item rest h
    | some w =>
      by_cases hw : w.ViewportOwned
      · simp only [nextFocus, if_pos hw, Option.some.injEq, Prod.mk.injEq] at h
        obtain ⟨h1, h2⟩ := h
        simp only [collectFocus, if_pos hw]
        rw [h1, h2]
      · simp only [nextFocus, if_neg hw] at h
        simp only [collectFocus, if_neg hw]
        exact ih item rest h

/-- An exhausted iterator means the full run is empty. -/
theorem nextFocus_exhausted :
    ∀ (l : List (Option ImGuiWindow)), nextFocus l = none → collectFocus l = [] := by
  intro l
  induction l with
  | nil => intro _; rfl
  | cons hd tl ih =>
    intro h
    cases hd with
    | none =>
      simp only [nextFocus] at h
      simp only [collectFocus]
      exact ih h
    | some w =>
      by_cases hw : w.ViewportOwned
      · simp [nextFocus, hw] at h
      · simp only [nextFocus, if_neg hw] at h
        simp only [collectFocus, if_neg hw]
        exact ih h

/-- Claim C9: the focus-order iterator emits a (name, key) pair exactly for
the windows flagged as owning their viewport, in the stored stack order; null
and non-owning entries are skipped with no placeholder emitted, and an empty
focus stack yields zero entries. -/
theorem focus_order_emits_owned (l : List (Option ImGuiWindow)) :
    collectFocus l = l.filterMap (fun o => match o with
      | some w => if w.ViewportOwned then some (w.Name, w.ViewportId) else none
      | none => none) ∧
    collectFocus ([] : List (Option ImGuiWindow)) = [] := by
  refine ⟨?_, rfl⟩
  induction l with
  | nil => rfl
  | cons hd tl ih =>
    cases hd with
    | none => simp [collectFocus, ih]
    | some w =>
      by_cases hw : w.ViewportOwned <;> simp [collectFocus, hw, ih]

/-- Claim C10: on_draw clears the redraw-pending flag unconditionally before
attempting frame acquisition, so a frame dropped on acquisition failure still
leaves the viewport excluded from the needs-redraw iteration until the flag
is set again. -/
theorem on_draw_clears_redraw_flag
    (vp : WgpuViewport) (acquire : Nat → Nat → Nat → AcqResult)
    (vp' : WgpuViewport) (b : Bool)
    (l : List (WindowId × WgpuViewport)) (wid : WindowId)
    (h : WgpuViewport.on_draw vp acquire = some (vp', b)) :
    vp'.waits_redraw = false ∧
    (wid, vp') ∉ WgpuManager.viewports_to_redraw { viewports := l } := by
  have hwr := (on_draw_state h).1
  refine ⟨hwr, ?_⟩
  intro hmem
  have hpred := List.of_mem_filter hmem
  rw [hwr] at hpred
  cases hpred

/-- Witness for C10: the failed-acquisition draw clears the flag and the
resulting viewport is excluded from the needs-redraw filter. -/
theorem on_draw_clears_redraw_flag_witness :
    vpAfterFail.waits_redraw = false ∧
    (0, vpAfterFail) ∉ WgpuManager.viewports_to_redraw { viewports := [(0, vpAfterFail)] } :=
  on_draw_clears_redraw_flag demoViewport acquireFail vpAfterFail false
    [(0, vpAfterFail)] 0 (by decide)

end Viewports
